import Mathlib

/-!
# Verification of the gonum `stat/spatial` package

Shallow embedding of the spatial autocorrelation engines (Global Moran's I
and Local Getis-Ord G*) over exact rational arithmetic, together with an
IEEE-style special-value model used for the division-by-zero behaviour.

Go `float64` arithmetic is embedded as `ℚ`; `math.Sqrt` is abstracted as an
explicit function parameter (every theorem involving it holds for an
arbitrary square-root function, so nothing depends on its values).
Go panics become `Except Err` results.  Go slice iteration
`for i, x := range xs` is rendered as a sum of the loop-body increments over
`List.range xs.length`, which over `ℚ` has exactly the loop's value.
-/

/-- Modelled from the spec: `stat.Mean(data, nil)` (the external moment
statistics helper of §6), the population arithmetic mean `Σxᵢ / n`. -/
def Mean (xs : List ℚ) : ℚ := xs.sum / (xs.length : ℚ)

/-- The cached second central moment `s` computed by the GetisOrd
constructor and mutators: `ss/n - mean*mean` where `ss = Σ v*v`. -/
def SMoment (xs : List ℚ) : ℚ :=
  (xs.map (fun v => v * v)).sum / (xs.length : ℚ) - Mean xs * Mean xs

/-- Modelled from the spec: the dense-matrix substrate of §6, a real-valued
matrix exposing `Dims` (as `rows`, `cols`) and `At`.  Entries outside the
stated dimensions are never read by the embedded code. -/
structure Mat where
  rows : ℕ
  cols : ℕ
  At : ℕ → ℕ → ℚ

/-- Modelled from the spec: the substrate's read-only row view
`locality.RowView(i)`, the list of entries of row `i`. -/
def Mat.RowView (w : Mat) (i : ℕ) : List ℚ :=
  (List.range w.cols).map (w.At i)

/-- Modelled from the spec: the substrate's `Sum`, the sum of every element
of the matrix. -/
def Mat.Sum (w : Mat) : ℚ :=
  ((List.range w.rows).map (fun i =>
    ((List.range w.cols).map (fun j => w.At i j)).sum)).sum

/-- Modelled from the spec: the substrate's `Dot` on vectors, the sum of
products of corresponding elements (its callers always supply vectors of
equal length). -/
def Dot (u v : List ℚ) : ℚ :=
  ((List.range (min u.length v.length)).map (fun k => u.getD k 0 * v.getD k 0)).sum

/-- Modelled from the spec: the substrate's `dst.Copy(src)`, which copies the
overlapping `min`-dimension block of `src` into `dst` and leaves the rest of
`dst` unchanged. -/
def Mat.CopyInto (dst src : Mat) : Mat :=
  ⟨dst.rows, dst.cols, fun i j =>
    if i < min dst.rows src.rows ∧ j < min dst.cols src.cols
    then src.At i j else dst.At i j⟩

/-- Modelled from the spec: the `Reset`-then-`Grow(r, c)`-then-`Copy(src)`
sequence used by the engines' `Reset`: a fresh zeroed `r×c` matrix with
`src`'s overlapping block copied in. -/
def Mat.growCopy (r c : ℕ) (src : Mat) : Mat :=
  Mat.CopyInto ⟨r, c, fun _ _ => 0⟩ src

/-- The two error kinds of §7.  Go panics `"spatial: data length mismatch"`
and `"spatial: weighted data not yet implemented"`. -/
inductive Err where
  | dimensionMismatch
  | notImplemented
deriving DecidableEq

/-- `GetisOrd` engine state (fields in source order). -/
structure GetisOrd where
  data : List ℚ
  locality : Mat
  mean : ℚ
  s : ℚ

/-- `Moran` engine state (fields in source order). -/
structure Moran where
  data : List ℚ
  mean : ℚ
  locality : Mat

/-- On error keep the fallback value: renders "a rejected mutation leaves
the engine unchanged" for the `Except`-valued mutators. -/
def exGetD {α : Type} (r : Except Err α) (a : α) : α :=
  match r with
  | .ok b => b
  | .error _ => a

/-- Whether an `Except` result is a success. -/
def exOk {α : Type} (r : Except Err α) : Bool :=
  match r with
  | .ok _ => true
  | .error _ => false

/-- `NewGetisOrd(data, weights, locality)`: rejects a non-nil `weights`
(`weights != nil`, i.e. the argument is present, however long), then checks
the dimension invariant, then builds the engine with cached `mean` and `s`. -/
def NewGetisOrd (data : List ℚ) (weights : Option (List ℚ)) (locality : Mat) :
    Except Err GetisOrd :=
  match weights with
  | some _ => .error .notImplemented
  | none =>
    if locality.rows ≠ data.length ∨ locality.cols ≠ data.length then
      .error .dimensionMismatch
    else
      .ok ⟨data, locality, Mean data, SMoment data⟩

/-- `(*GetisOrd).Reset(data, locality)`: nil arguments mean "keep the
current value"; both nil is a no-op; the dimension check always precedes
any state change; `mean` and `s` are recomputed whenever data is supplied. -/
def GetisOrd.Reset (g : GetisOrd) (data : Option (List ℚ)) (locality : Option Mat) :
    Except Err GetisOrd :=
  match data, locality with
  | none, none => .ok g
  | none, some w =>
    if w.rows ≠ g.data.length ∨ w.cols ≠ g.data.length then
      .error .dimensionMismatch
    else
      .ok ⟨g.data, Mat.CopyInto g.locality w, g.mean, g.s⟩
  | some d, none =>
    if g.locality.rows ≠ d.length ∨ g.locality.cols ≠ d.length then
      .error .dimensionMismatch
    else
      .ok ⟨d, g.locality, Mean d, SMoment d⟩
  | some d, some w =>
    if w.rows ≠ d.length ∨ w.cols ≠ d.length then
      .error .dimensionMismatch
    else
      .ok ⟨d, Mat.growCopy w.rows w.cols w, Mean d, SMoment d⟩

/-- `(*GetisOrd).SetData(data)`: validates the new data length against the
held locality's dimensions, then replaces the data and recomputes the cache. -/
def GetisOrd.SetData (g : GetisOrd) (data : List ℚ) : Except Err GetisOrd :=
  if g.locality.rows ≠ data.length ∨ g.locality.cols ≠ data.length then
    .error .dimensionMismatch
  else
    .ok ⟨data, g.locality, Mean data, SMoment data⟩

/-- `(*GetisOrd).SetLocality(locality)`: validates the new locality's
dimensions against the held data length, then copies it in; the cached
moments are untouched. -/
def GetisOrd.SetLocality (g : GetisOrd) (w : Mat) : Except Err GetisOrd :=
  if w.rows ≠ g.data.length ∨ w.cols ≠ g.data.length then
    .error .dimensionMismatch
  else
    .ok ⟨g.data, Mat.CopyInto g.locality w, g.mean, g.s⟩

/-- `GetisOrd.Len()`. -/
def GetisOrd.Len (g : GetisOrd) : ℕ := g.data.length

/-- `GetisOrd.Gstar(i)`: `wi` is row `i` of the locality matrix;
`ws = mean * Sum(wi)`; the result is
`(Dot(wi, data) - ws) / (s * sqrt((n*Dot(wi, wi) - ws*ws)/(n-1)))`. -/
def GetisOrd.Gstar (sqrt : ℚ → ℚ) (g : GetisOrd) (i : ℕ) : ℚ :=
  let wi := g.locality.RowView i
  let ws := g.mean * wi.sum
  let n : ℚ := (g.data.length : ℚ)
  let num := Dot wi g.data - ws
  let den := g.s * sqrt ((n * Dot wi wi - ws * ws) / (n - 1))
  num / den

/-- `NewMoran(data, locality)`: checks the dimension invariant, then builds
the engine with cached `mean`. -/
def NewMoran (data : List ℚ) (locality : Mat) : Except Err Moran :=
  if locality.rows ≠ data.length ∨ locality.cols ≠ data.length then
    .error .dimensionMismatch
  else
    .ok ⟨data, Mean data, locality⟩

/-- `(*Moran).Reset(data, locality)`: nil arguments mean "keep the current
value"; both nil is a no-op; the dimension check always precedes any state
change; `mean` is recomputed whenever data is supplied. -/
def Moran.Reset (m : Moran) (data : Option (List ℚ)) (locality : Option Mat) :
    Except Err Moran :=
  match data, locality with
  | none, none => .ok m
  | none, some w =>
    if w.rows ≠ m.data.length ∨ w.cols ≠ m.data.length then
      .error .dimensionMismatch
    else
      .ok ⟨m.data, m.mean, Mat.CopyInto m.locality w⟩
  | some d, none =>
    if m.locality.rows ≠ d.length ∨ m.locality.cols ≠ d.length then
      .error .dimensionMismatch
    else
      .ok ⟨d, Mean d, m.locality⟩
  | some d, some w =>
    if w.rows ≠ d.length ∨ w.cols ≠ d.length then
      .error .dimensionMismatch
    else
      .ok ⟨d, Mean d, Mat.growCopy w.rows w.cols w⟩

/-- `(*Moran).SetData(data)`. -/
def Moran.SetData (m : Moran) (data : List ℚ) : Except Err Moran :=
  if m.locality.rows ≠ data.length ∨ m.locality.cols ≠ data.length then
    .error .dimensionMismatch
  else
    .ok ⟨data, Mean data, m.locality⟩

/-- `(*Moran).SetLocality(locality)`. -/
def Moran.SetLocality (m : Moran) (w : Mat) : Except Err Moran :=
  if w.rows ≠ m.data.length ∨ w.cols ≠ m.data.length then
    .error .dimensionMismatch
  else
    .ok ⟨m.data, m.mean, Mat.CopyInto m.locality w⟩

/-- `Moran.I()`: the double loop accumulating
`num += locality.At(i,j) * zi * zj` and `den += zi * zi` with
`zi = data[i] - mean`, returning `(n * num) / (Sum(locality) * den)`. -/
def Moran.I (m : Moran) : ℚ :=
  let n := m.data.length
  let num := ((List.range n).map (fun i =>
    ((List.range n).map (fun j =>
      m.locality.At i j * (m.data.getD i 0 - m.mean) * (m.data.getD j 0 - m.mean))).sum)).sum
  let den := ((List.range n).map (fun i =>
    (m.data.getD i 0 - m.mean) * (m.data.getD i 0 - m.mean))).sum
  ((n : ℚ) * num) / (m.locality.Sum * den)

/-- `Moran.E()`: `-1 / float64(len(m.data) - 1)` (integer subtraction, then
conversion; rendered as cast-then-subtract, which agrees on every length). -/
def Moran.E (m : Moran) : ℚ := -1 / ((m.data.length : ℚ) - 1)

/-- `Moran.Var()`: the single pass accumulating `s0`, `s1` (halved at the
end), `s2` (from the per-row running `p2`), `var2` and `var4`, then the
moment formulas `a`, `c`, `d`, `b` and the result `(a-b)/c - e*e`. -/
def Moran.Var (m : Moran) : ℚ :=
  let n := m.data.length
  let s0 := ((List.range n).map (fun i =>
    ((List.range n).map (fun j => m.locality.At i j)).sum)).sum
  let s1 := (((List.range n).map (fun i =>
    ((List.range n).map (fun j =>
      (m.locality.At i j + m.locality.At j i) *
      (m.locality.At i j + m.locality.At j i))).sum)).sum) * (1/2)
  let s2 := ((List.range n).map (fun i =>
    (((List.range n).map (fun j =>
      m.locality.At i j + m.locality.At j i)).sum) *
    (((List.range n).map (fun j =>
      m.locality.At i j + m.locality.At j i)).sum))).sum
  let var2 := ((List.range n).map (fun i =>
    (m.data.getD i 0 - m.mean) * (m.data.getD i 0 - m.mean))).sum
  let var4 := ((List.range n).map (fun i =>
    ((m.data.getD i 0 - m.mean) * (m.data.getD i 0 - m.mean)) *
    ((m.data.getD i 0 - m.mean) * (m.data.getD i 0 - m.mean)))).sum
  let nq : ℚ := (n : ℚ)
  let a := nq * ((nq * nq - 3 * nq + 3) * s1 - nq * s2 + 3 * s0 * s0)
  let c := (nq - 1) * (nq - 2) * (nq - 3) * s0 * s0
  let d := var4 / (var2 * var2)
  let b := d * ((nq * nq - nq) * s1 - 2 * nq * s2 + 6 * s0 * s0)
  let e := m.E
  (a - b) / c - e * e

/-- `Moran.Z()`: `(m.I() - m.E()) / math.Sqrt(m.Var())`. -/
def Moran.Z (sqrt : ℚ → ℚ) (m : Moran) : ℚ :=
  (m.I - m.E) / sqrt (m.Var)

/-- The stateless `GlobalMoransI(data, weights, locality)` of the newer API:
rejects non-nil weights, checks the dimension invariant, then computes
`(I, Var, Z)` with the same loops and formulas as the `Moran` engine. -/
def GlobalMoransI (sqrt : ℚ → ℚ) (data : List ℚ) (weights : Option (List ℚ))
    (locality : Mat) : Except Err (ℚ × ℚ × ℚ) :=
  match weights with
  | some _ => .error .notImplemented
  | none =>
    if locality.rows ≠ data.length ∨ locality.cols ≠ data.length then
      .error .dimensionMismatch
    else
      let mean := Mean data
      let n := data.length
      let num := ((List.range n).map (fun i =>
        ((List.range n).map (fun j =>
          locality.At i j * (data.getD i 0 - mean) * (data.getD j 0 - mean))).sum)).sum
      let den := ((List.range n).map (fun i =>
        (data.getD i 0 - mean) * (data.getD i 0 - mean))).sum
      let i := ((n : ℚ) * num) / (locality.Sum * den)
      let e : ℚ := -1 / ((n : ℚ) - 1)
      let s0 := ((List.range n).map (fun i =>
        ((List.range n).map (fun j => locality.At i j)).sum)).sum
      let s1 := (((List.range n).map (fun i =>
        ((List.range n).map (fun j =>
          (locality.At i j + locality.At j i) *
          (locality.At i j + locality.At j i))).sum)).sum) * (1/2)
      let s2 := ((List.range n).map (fun i =>
        (((List.range n).map (fun j =>
          locality.At i j + locality.At j i)).sum) *
        (((List.range n).map (fun j =>
          locality.At i j + locality.At j i)).sum))).sum
      let var2 := ((List.range n).map (fun i =>
        (data.getD i 0 - mean) * (data.getD i 0 - mean))).sum
      let var4 := ((List.range n).map (fun i =>
        ((data.getD i 0 - mean) * (data.getD i 0 - mean)) *
        ((data.getD i 0 - mean) * (data.getD i 0 - mean)))).sum
      let nq : ℚ := (n : ℚ)
      let a := nq * ((nq * nq - 3 * nq + 3) * s1 - nq * s2 + 3 * s0 * s0)
      let c := (nq - 1) * (nq - 2) * (nq - 3) * s0 * s0
      let d := var4 / (var2 * var2)
      let b := d * ((nq * nq - nq) * s1 - 2 * nq * s2 + 6 * s0 * s0)
      let v := (a - b) / c - e * e
      let z := (i - e) / sqrt v
      .ok (i, v, z)

/-!
## IEEE special-value model

For the claims about division-by-zero behaviour the `ℚ` embedding is not
enough (Lean's `ℚ` division makes `q / 0 = 0`, where IEEE 754 produces an
infinity or NaN).  `FP` models a `float64` as either a finite value (held
exactly as a `ℚ`; this model has no rounding or overflow) or one of the
special values `+Inf`, `-Inf`, `NaN`, with the IEEE 754 propagation rules
for them.  `ℚ` has no signed zero, so a zero divisor behaves as IEEE `+0`,
which is what Go produces at the program points in question.
-/

/-- A `float64`: a finite value or an IEEE special value. -/
inductive FP where
  | fin : ℚ → FP
  | inf : FP
  | ninf : FP
  | nan : FP
deriving DecidableEq

/-- Whether an `FP` value is finite. -/
def FP.finite : FP → Bool
  | .fin _ => true
  | _ => false

/-- IEEE negation. -/
def FPneg : FP → FP
  | .nan => .nan
  | .inf => .ninf
  | .ninf => .inf
  | .fin a => .fin (-a)

/-- IEEE addition (finite part exact). -/
def FPadd : FP → FP → FP
  | .nan, _ => .nan
  | _, .nan => .nan
  | .inf, .ninf => .nan
  | .ninf, .inf => .nan
  | .inf, _ => .inf
  | _, .inf => .inf
  | .ninf, _ => .ninf
  | _, .ninf => .ninf
  | .fin a, .fin b => .fin (a + b)

/-- IEEE subtraction. -/
def FPsub (a b : FP) : FP := FPadd a (FPneg b)

/-- IEEE multiplication; `0 * ±Inf = NaN`. -/
def FPmul : FP → FP → FP
  | .nan, _ => .nan
  | _, .nan => .nan
  | .inf, .inf => .inf
  | .inf, .ninf => .ninf
  | .ninf, .inf => .ninf
  | .ninf, .ninf => .inf
  | .inf, .fin b => if b = 0 then .nan else if 0 < b then .inf else .ninf
  | .fin a, .inf => if a = 0 then .nan else if 0 < a then .inf else .ninf
  | .ninf, .fin b => if b = 0 then .nan else if 0 < b then .ninf else .inf
  | .fin a, .ninf => if a = 0 then .nan else if 0 < a then .ninf else .inf
  | .fin a, .fin b => .fin (a * b)

/-- IEEE division; a zero divisor acts as `+0` (no signed zero in `ℚ`):
`x / 0` is `NaN` for `x = 0` and `±Inf` according to the sign of `x`
otherwise. -/
def FPdiv : FP → FP → FP
  | .nan, _ => .nan
  | _, .nan => .nan
  | .inf, .inf => .nan
  | .inf, .ninf => .nan
  | .ninf, .inf => .nan
  | .ninf, .ninf => .nan
  | .inf, .fin b => if 0 ≤ b then .inf else .ninf
  | .ninf, .fin b => if 0 ≤ b then .ninf else .inf
  | .fin _, .inf => .fin 0
  | .fin _, .ninf => .fin 0
  | .fin a, .fin b =>
    if b = 0 then (if a = 0 then .nan else if 0 < a then .inf else .ninf)
    else .fin (a / b)

/-- IEEE square root: `NaN` on `NaN` and on negative arguments, `+Inf` on
`+Inf`; on a finite nonnegative argument the (irrational in general) value
is abstracted as an arbitrary function `rsqrt`, and every theorem below
holds for every choice of `rsqrt`. -/
def FPsqrt (rsqrt : ℚ → ℚ) : FP → FP
  | .nan => .nan
  | .inf => .inf
  | .ninf => .nan
  | .fin a => if a < 0 then .nan else .fin (rsqrt a)

/-- Left-to-right accumulation of a sum starting from `0`, as the Go loops
and the substrate's `Sum` do. -/
def FPsum (xs : List FP) : FP := xs.foldl FPadd (.fin 0)

/-- Modelled from the spec: the substrate's `Dot` over `FP`, accumulating
the products in order. -/
def FPdot (u v : List FP) : FP := FPsum (List.zipWith FPmul u v)

/-- Modelled from the spec: `stat.Mean` over `FP`. -/
def FPMean (xs : List FP) : FP := FPdiv (FPsum xs) (.fin (xs.length : ℚ))

/-- The GetisOrd constructor's cached `s` over `FP`:
`ss / n - mean * mean` with `ss` the accumulated sum of squares. -/
def FPsmoment (xs : List FP) : FP :=
  FPsub (FPdiv (FPsum (xs.map (fun v => FPmul v v))) (.fin (xs.length : ℚ)))
    (FPmul (FPMean xs) (FPMean xs))

/-- A locality matrix over `FP`. -/
structure MatF where
  rows : ℕ
  cols : ℕ
  At : ℕ → ℕ → FP

/-- Row view over `FP`. -/
def MatF.RowView (w : MatF) (i : ℕ) : List FP :=
  (List.range w.cols).map (w.At i)

/-- `GetisOrd.Gstar(i)` over the `FP` model, for an engine holding `data`
with cached `mean` and `s` and locality matrix `w`; the same expression as
the `ℚ` embedding, with IEEE special-value semantics. -/
def FPGstar (rsqrt : ℚ → ℚ) (data : List FP) (mean s : FP) (w : MatF) (i : ℕ) : FP :=
  let wi := w.RowView i
  let ws := FPmul mean (FPsum wi)
  let n : FP := .fin (data.length : ℚ)
  let num := FPsub (FPdot wi data) ws
  let den := FPmul s (FPsqrt rsqrt
    (FPdiv (FPsub (FPmul n (FPdot wi wi)) (FPmul ws ws)) (FPsub n (.fin 1))))
  FPdiv num den

/-- `Moran.E()` over the `FP` model: `-1 / float64(len(data) - 1)` (the
divisor is computed exactly, by integer subtraction then conversion). -/
def FPMoranE (data : List FP) : FP :=
  FPdiv (.fin (-1)) (.fin ((data.length : ℚ) - 1))

/-!
## Spec-side formulas

A second set of definitions written from the spec's words (§4.2–§4.4 and
the claims), to be compared with the source embedding above.  They use
`Finset.range` sums, `^`-powers and the spec's phrasing of each quantity.
-/

/-- From the spec's words: `num = Σᵢ Σⱼ locality[i][j]·(xᵢ−mean)·(xⱼ−mean)`,
`den = Σᵢ (xᵢ−mean)²`, `I = n·num / (sum(locality)·den)`, with `mean` the
arithmetic mean of the data. -/
def specMoranI (data : List ℚ) (w : Mat) : ℚ :=
  ((data.length : ℚ) *
      ∑ i in Finset.range data.length, ∑ j in Finset.range data.length,
        w.At i j * (data.getD i 0 - Mean data) * (data.getD j 0 - Mean data)) /
    ((∑ i in Finset.range w.rows, ∑ j in Finset.range w.cols, w.At i j) *
      ∑ i in Finset.range data.length, (data.getD i 0 - Mean data) ^ 2)

/-- From the spec's words: `s0 = Σᵢⱼ wᵢⱼ`, `s1 = (1/2)·Σᵢⱼ (wᵢⱼ+wⱼᵢ)²`,
`s2 = Σᵢ (Σⱼ (wᵢⱼ+wⱼᵢ))²`, `var2 = Σᵢ (xᵢ−mean)²`, `var4 = Σᵢ (xᵢ−mean)⁴`,
`a = n·[(n²−3n+3)·s1 − n·s2 + 3·s0²]`, `c = (n−1)(n−2)(n−3)·s0²`,
`d = var4/var2²`, `b = d·[(n²−n)·s1 − 2n·s2 + 6·s0²]`, and
`Var = (a−b)/c − E²` with `E = −1/(n−1)`. -/
def specMoranVar (data : List ℚ) (w : Mat) : ℚ :=
  let n : ℚ := (data.length : ℚ)
  let mean := Mean data
  let s0 := ∑ i in Finset.range data.length, ∑ j in Finset.range data.length, w.At i j
  let s1 := (1/2) * ∑ i in Finset.range data.length, ∑ j in Finset.range data.length,
      (w.At i j + w.At j i) ^ 2
  let s2 := ∑ i in Finset.range data.length,
      (∑ j in Finset.range data.length, (w.At i j + w.At j i)) ^ 2
  let var2 := ∑ i in Finset.range data.length, (data.getD i 0 - mean) ^ 2
  let var4 := ∑ i in Finset.range data.length, (data.getD i 0 - mean) ^ 4
  let a := n * ((n ^ 2 - 3 * n + 3) * s1 - n * s2 + 3 * s0 ^ 2)
  let c := (n - 1) * (n - 2) * (n - 3) * s0 ^ 2
  let d := var4 / var2 ^ 2
  let b := d * ((n ^ 2 - n) * s1 - 2 * n * s2 + 6 * s0 ^ 2)
  (a - b) / c - (-1 / (n - 1)) ^ 2

/-- From the spec's words: with `wi` row `i` of the locality matrix,
`ws = mean·sum(wi)`, `numerator = dot(wi, data) − ws`,
`denominator = s·sqrt((n·dot(wi, wi) − ws²)/(n−1))` where
`s = (1/n)·Σxⱼ² − mean²`, and `Gstar(i) = numerator / denominator`. -/
def specGstar (sqrt : ℚ → ℚ) (data : List ℚ) (w : Mat) (i : ℕ) : ℚ :=
  let n : ℚ := (data.length : ℚ)
  let mean := Mean data
  let s := (1 / n) * (∑ j in Finset.range data.length, data.getD j 0 ^ 2) - mean ^ 2
  let ws := mean * ∑ j in Finset.range data.length, w.At i j
  let num := (∑ j in Finset.range data.length, w.At i j * data.getD j 0) - ws
  let den := s * sqrt ((n * ∑ j in Finset.range data.length, w.At i j ^ 2 - ws ^ 2) / (n - 1))
  num / den

/-!
## Bridging lemmas: loop renderings vs `Finset` sums
-/

theorem sum_map_range_eq (f : ℕ → ℚ) (n : ℕ) :
    ((List.range n).map f).sum = ∑ i in Finset.range n, f i := by
  induction n with
  | zero => simp
  | succ k ih =>
    rw [List.range_succ, List.map_append, List.sum_append, Finset.sum_range_succ, ih]
    simp

theorem map_range_congr {f g : ℕ → ℚ} (n : ℕ) (h : ∀ i, i < n → f i = g i) :
    (List.range n).map f = (List.range n).map g := by
  induction n with
  | zero => simp
  | succ k ih =>
    rw [List.range_succ, List.map_append, List.map_append,
      ih (fun i hi => h i (Nat.lt_succ_of_lt hi))]
    simp [h k (Nat.lt_succ_self k)]

theorem getD_map_range (f : ℕ → ℚ) {n k : ℕ} (hk : k < n) :
    ((List.range n).map f).getD k 0 = f k := by
  rw [List.getD_eq_getElem?_getD]
  simp [List.getElem?_map, List.getElem?_range, hk]

theorem rowView_sum (w : Mat) (i : ℕ) :
    (w.RowView i).sum = ∑ j in Finset.range w.cols, w.At i j :=
  sum_map_range_eq _ _

theorem dot_rowView (w : Mat) (i : ℕ) (xs : List ℚ) (h : w.cols = xs.length) :
    Dot (w.RowView i) xs = ∑ j in Finset.range xs.length, w.At i j * xs.getD j 0 := by
  unfold Dot Mat.RowView
  rw [List.length_map, List.length_range, h, min_self]
  rw [map_range_congr xs.length (fun k hk => by
    rw [getD_map_range (w.At i) hk])]
  exact sum_map_range_eq _ _

theorem dot_rowView_self (w : Mat) (i : ℕ) :
    Dot (w.RowView i) (w.RowView i) = ∑ j in Finset.range w.cols, w.At i j * w.At i j := by
  unfold Dot Mat.RowView
  rw [List.length_map, List.length_range, min_self]
  rw [map_range_congr w.cols (fun k hk => by
    rw [getD_map_range (w.At i) hk])]
  exact sum_map_range_eq _ _

theorem mat_sum_eq (w : Mat) :
    w.Sum = ∑ i in Finset.range w.rows, ∑ j in Finset.range w.cols, w.At i j := by
  unfold Mat.Sum
  rw [map_range_congr w.rows (fun i _ => sum_map_range_eq (fun j => w.At i j) w.cols)]
  exact sum_map_range_eq _ _

theorem growCopy_at (w : Mat) {i j : ℕ} (hi : i < w.rows) (hj : j < w.cols) :
    (Mat.growCopy w.rows w.cols w).At i j = w.At i j := by
  simp [Mat.growCopy, Mat.CopyInto, hi, hj]

theorem growCopy_sum (w : Mat) :
    (Mat.growCopy w.rows w.cols w).Sum = w.Sum := by
  unfold Mat.Sum
  exact congrArg List.sum (map_range_congr w.rows (fun i hi =>
    congrArg List.sum (map_range_congr w.cols (fun j hj => growCopy_at w hi hj))))

/-!
## Concrete fixtures for witnesses
-/

/-- 1×1 all-ones locality matrix. -/
def W1 : Mat := ⟨1, 1, fun _ _ => 1⟩

/-- 2×2 locality matrix with zero diagonal. -/
def W2 : Mat := ⟨2, 2, fun i j => if i = j then 0 else 1⟩

/-- 3×3 all-ones locality matrix. -/
def W3 : Mat := ⟨3, 3, fun _ _ => 1⟩

/-- 4×4 locality matrix with zero diagonal. -/
def W4 : Mat := ⟨4, 4, fun i j => if i = j then 0 else 1⟩

/-- A well-formed 4-point Moran engine (as `NewMoran` would build it). -/
def M4 : Moran := ⟨[0, 1, 2, 3], Mean [0, 1, 2, 3], W4⟩

/-- A well-formed 2-point GetisOrd engine (as `NewGetisOrd` would build it). -/
def G2 : GetisOrd := ⟨[0, 1], W2, Mean [0, 1], SMoment [0, 1]⟩

/-- A 1-point Moran engine. -/
def Mm0 : Moran := ⟨[5], Mean [5], W1⟩

/-- A 1-point GetisOrd engine. -/
def Gg0 : GetisOrd := ⟨[5], W1, Mean [5], SMoment [5]⟩

/-- Whether an optional weights argument is a non-empty list (the reading
"the supplied weights collection has at least one element"). -/
def isNonemptyWeights : Option (List ℚ) → Bool
  | some (_ :: _) => true
  | _ => false

/-!
## Claim theorems
-/

/-- C5: for every Moran engine state, `Z()` equals `(I() − E()) / sqrt(Var())`
exactly (by construction, for every square-root function), and `E()` equals
`−1/(n−1)` for the held data length `n`. -/
theorem moran_Z_self_consistent (m : Moran) (sqrt : ℚ → ℚ) :
    Moran.Z sqrt m = (m.I - m.E) / sqrt m.Var ∧
    m.E = -1 / ((m.data.length : ℚ) - 1) :=
  ⟨rfl, rfl⟩

/-- C2: for every Moran engine whose cached mean is the arithmetic mean of
its data (as every construction and mutation establishes), `I()` returns
`n·num / (sum(w)·den)` with `num = Σᵢ Σⱼ w[i][j]·(xᵢ−mean)·(xⱼ−mean)` and
`den = Σᵢ (xᵢ−mean)²`. -/
theorem moran_I_eq_spec (m : Moran) (hm : m.mean = Mean m.data) :
    m.I = specMoranI m.data m.locality := by
  simp only [Moran.I, specMoranI]
  rw [hm, mat_sum_eq]
  have hnum : ((List.range m.data.length).map (fun i =>
      ((List.range m.data.length).map (fun j =>
        m.locality.At i j * (m.data.getD i 0 - Mean m.data) *
          (m.data.getD j 0 - Mean m.data))).sum)).sum
      = ∑ i in Finset.range m.data.length, ∑ j in Finset.range m.data.length,
        m.locality.At i j * (m.data.getD i 0 - Mean m.data) *
          (m.data.getD j 0 - Mean m.data) := by
    rw [map_range_congr m.data.length (fun i _ => sum_map_range_eq _ _)]
    exact sum_map_range_eq _ _
  have hden : ((List.range m.data.length).map (fun i =>
      (m.data.getD i 0 - Mean m.data) * (m.data.getD i 0 - Mean m.data))).sum
      = ∑ i in Finset.range m.data.length, (m.data.getD i 0 - Mean m.data) ^ 2 := by
    rw [sum_map_range_eq]
    exact Finset.sum_congr rfl (fun i _ => by ring)
  rw [hnum, hden]

/-- Witness for C2 at a concrete 4-point engine. -/
theorem moran_I_eq_spec_witness :
    M4.mean = Mean M4.data ∧ M4.I = specMoranI M4.data M4.locality :=
  ⟨rfl, moran_I_eq_spec M4 rfl⟩

/-- C7 counterexample: with an empty but present (non-nil) weights slice,
`NewGetisOrd` raises `NotImplemented` even though the supplied weighting is
not non-empty, so "when and only when ... non-empty" fails as stated. -/
theorem weights_empty_counterexample :
    ¬(NewGetisOrd [(1 : ℚ)] (some []) W1 = .error .notImplemented ↔
      isNonemptyWeights (some []) = true) := by
  intro hiff
  have h := hiff.mp rfl
  simp [isNonemptyWeights] at h

/-- C7 (amended): `NewGetisOrd` and `GlobalMoransI` raise `NotImplemented`
when and only when the supplied weights argument is present (non-nil),
regardless of its length; with a nil weighting they never raise it. -/
theorem notImplemented_iff_weights_nonnil (sqrt : ℚ → ℚ) (data : List ℚ)
    (weights : Option (List ℚ)) (w : Mat) :
    ((NewGetisOrd data weights w = .error .notImplemented) ↔ weights ≠ none) ∧
    ((GlobalMoransI sqrt data weights w = .error .notImplemented) ↔ weights ≠ none) := by
  cases weights with
  | none =>
    refine ⟨⟨fun h => ?_, fun h => absurd rfl h⟩, ⟨fun h => ?_, fun h => absurd rfl h⟩⟩
    · simp only [NewGetisOrd] at h
      by_cases hc : (w.rows ≠ data.length ∨ w.cols ≠ data.length)
      · rw [if_pos hc] at h
        injection h with h2
        exact Err.noConfusion h2
      · rw [if_neg hc] at h
        exact Except.noConfusion h
    · simp only [GlobalMoransI] at h
      by_cases hc : (w.rows ≠ data.length ∨ w.cols ≠ data.length)
      · rw [if_pos hc] at h
        injection h with h2
        exact Err.noConfusion h2
      · rw [if_neg hc] at h
        exact Except.noConfusion h
  | some l =>
    exact ⟨⟨fun _ => Option.some_ne_none l, fun _ => rfl⟩,
      ⟨fun _ => Option.some_ne_none l, fun _ => rfl⟩⟩

/-- C10: with a non-nil weights argument and mismatched dimensions, the
raised error is `NotImplemented`, not `DimensionMismatch` (the weights
check precedes the dimension check). -/
theorem weights_check_precedes_dimension (sqrt : ℚ → ℚ) (data ws : List ℚ) (w : Mat)
    (h : w.rows ≠ data.length ∨ w.cols ≠ data.length) :
    NewGetisOrd data (some ws) w = .error .notImplemented ∧
    NewGetisOrd data (some ws) w ≠ .error .dimensionMismatch ∧
    GlobalMoransI sqrt data (some ws) w = .error .notImplemented ∧
    GlobalMoransI sqrt data (some ws) w ≠ .error .dimensionMismatch := by
  refine ⟨rfl, fun hbad => ?_, rfl, fun hbad => ?_⟩
  · simp only [NewGetisOrd] at hbad
    injection hbad with h2
    exact Err.noConfusion h2
  · simp only [GlobalMoransI] at hbad
    injection hbad with h2
    exact Err.noConfusion h2

/-- Witness for C10: one observation, a 3×3 locality, non-nil weights. -/
theorem weights_check_precedes_dimension_witness :
    (W3.rows ≠ [(1 : ℚ)].length ∨ W3.cols ≠ [(1 : ℚ)].length) ∧
    NewGetisOrd [(1 : ℚ)] (some [2]) W3 = .error .notImplemented ∧
    GlobalMoransI id [(1 : ℚ)] (some [2]) W3 = .error .notImplemented := by
  have h := weights_check_precedes_dimension id [(1 : ℚ)] [2] W3 (by decide)
  exact ⟨by decide, h.1, h.2.2.1⟩

theorem sum_map_list (f : ℚ → ℚ) (xs : List ℚ) :
    (xs.map f).sum = ∑ i in Finset.range xs.length, f (xs.getD i 0) := by
  induction xs with
  | nil => simp
  | cons x xs ih =>
    rw [List.map_cons, List.sum_cons, List.length_cons, Finset.sum_range_succ', ih]
    simp [List.getD_cons_succ, List.getD_cons_zero, add_comm]

/-- C3: for every Moran engine with `n ≥ 4` whose cached mean is the
arithmetic mean of its data, `Var()` returns `(a−b)/c − E²` built from
`s0`, `s1`, `s2`, `var2`, `var4` exactly as the spec states them. -/
theorem moran_Var_eq_spec (m : Moran) (hn : 4 ≤ m.data.length)
    (hm : m.mean = Mean m.data) :
    m.Var = specMoranVar m.data m.locality := by
  simp only [Moran.Var, specMoranVar, Moran.E]
  rw [hm]
  have hs0 : ((List.range m.data.length).map (fun i =>
      ((List.range m.data.length).map (fun j => m.locality.At i j)).sum)).sum
      = ∑ i in Finset.range m.data.length, ∑ j in Finset.range m.data.length,
        m.locality.At i j := by
    rw [map_range_congr m.data.length (fun i _ => sum_map_range_eq _ _)]
    exact sum_map_range_eq _ _
  have hs1 : ((List.range m.data.length).map (fun i =>
      ((List.range m.data.length).map (fun j =>
        (m.locality.At i j + m.locality.At j i) *
        (m.locality.At i j + m.locality.At j i))).sum)).sum
      = ∑ i in Finset.range m.data.length, ∑ j in Finset.range m.data.length,
        (m.locality.At i j + m.locality.At j i) ^ 2 := by
    rw [map_range_congr m.data.length (fun i _ => sum_map_range_eq _ _)]
    rw [sum_map_range_eq]
    exact Finset.sum_congr rfl (fun i _ => Finset.sum_congr rfl (fun j _ => by ring))
  have hs2 : ((List.range m.data.length).map (fun i =>
      (((List.range m.data.length).map (fun j =>
        m.locality.At i j + m.locality.At j i)).sum) *
      (((List.range m.data.length).map (fun j =>
        m.locality.At i j + m.locality.At j i)).sum))).sum
      = ∑ i in Finset.range m.data.length,
        (∑ j in Finset.range m.data.length,
          (m.locality.At i j + m.locality.At j i)) ^ 2 := by
    rw [map_range_congr m.data.length (fun i _ => by rw [sum_map_range_eq])]
    rw [sum_map_range_eq]
    exact Finset.sum_congr rfl (fun i _ => by ring)
  have hvar2 : ((List.range m.data.length).map (fun i =>
      (m.data.getD i 0 - Mean m.data) * (m.data.getD i 0 - Mean m.data))).sum
      = ∑ i in Finset.range m.data.length, (m.data.getD i 0 - Mean m.data) ^ 2 := by
    rw [sum_map_range_eq]
    exact Finset.sum_congr rfl (fun i _ => by ring)
  have hvar4 : ((List.range m.data.length).map (fun i =>
      ((m.data.getD i 0 - Mean m.data) * (m.data.getD i 0 - Mean m.data)) *
      ((m.data.getD i 0 - Mean m.data) * (m.data.getD i 0 - Mean m.data)))).sum
      = ∑ i in Finset.range m.data.length, (m.data.getD i 0 - Mean m.data) ^ 4 := by
    rw [sum_map_range_eq]
    exact Finset.sum_congr rfl (fun i _ => by ring)
  rw [hs0, hs1, hs2, hvar2, hvar4]
  ring

/-- Witness for C3 at a concrete 4-point engine. -/
theorem moran_Var_eq_spec_witness :
    4 ≤ M4.data.length ∧ M4.mean = Mean M4.data ∧
    M4.Var = specMoranVar M4.data M4.locality :=
  ⟨by decide, rfl, moran_Var_eq_spec M4 (by decide) rfl⟩

/-- C4: for every GetisOrd engine with `n ≥ 2` whose cached moments are the
ones every construction and mutation computes, and every index `i < n`,
the cached `s` equals `(1/n)·Σxⱼ² − mean²` and `Gstar(i)` returns
`(dot(wi, data) − ws) / (s·sqrt((n·dot(wi, wi) − ws²)/(n−1)))` with
`wi` row `i` of the locality matrix and `ws = mean·sum(wi)`. -/
theorem getisOrd_Gstar_eq_spec (sqrt : ℚ → ℚ) (g : GetisOrd) (i : ℕ)
    (hm : g.mean = Mean g.data) (hs : g.s = SMoment g.data)
    (hc : g.locality.cols = g.data.length)
    (hn : 2 ≤ g.data.length) (hi : i < g.data.length) :
    g.s = (1 / (g.data.length : ℚ)) *
        (∑ j in Finset.range g.data.length, g.data.getD j 0 ^ 2) -
        Mean g.data ^ 2 ∧
    GetisOrd.Gstar sqrt g i = specGstar sqrt g.data g.locality i := by
  have hsm : SMoment g.data = (1 / (g.data.length : ℚ)) *
      (∑ j in Finset.range g.data.length, g.data.getD j 0 ^ 2) -
      Mean g.data ^ 2 := by
    unfold SMoment
    rw [sum_map_list (fun v => v * v)]
    have : ∑ j in Finset.range g.data.length, g.data.getD j 0 * g.data.getD j 0
        = ∑ j in Finset.range g.data.length, g.data.getD j 0 ^ 2 :=
      Finset.sum_congr rfl (fun j _ => by ring)
    rw [this]
    ring
  refine ⟨hs.trans hsm, ?_⟩
  simp only [GetisOrd.Gstar, specGstar]
  rw [hm, hs, hsm, rowView_sum, dot_rowView g.locality i g.data hc, dot_rowView_self, hc]
  have hsq : ∑ j in Finset.range g.data.length, g.locality.At i j * g.locality.At i j
      = ∑ j in Finset.range g.data.length, g.locality.At i j ^ 2 :=
    Finset.sum_congr rfl (fun j _ => by ring)
  rw [hsq]
  ring

/-- Witness for C4 at a concrete 2-point engine and index 0. -/
theorem getisOrd_Gstar_eq_spec_witness :
    G2.mean = Mean G2.data ∧ G2.s = SMoment G2.data ∧
    G2.locality.cols = G2.data.length ∧ 2 ≤ G2.data.length ∧ 0 < G2.data.length ∧
    (G2.s = (1 / (G2.data.length : ℚ)) *
        (∑ j in Finset.range G2.data.length, G2.data.getD j 0 ^ 2) -
        Mean G2.data ^ 2 ∧
      GetisOrd.Gstar id G2 0 = specGstar id G2.data G2.locality 0) :=
  ⟨rfl, rfl, rfl, by decide, by decide,
    getisOrd_Gstar_eq_spec id G2 0 rfl rfl rfl (by decide) (by decide)⟩

/-- C1: for every data vector and square locality matrix of matching
dimension, the stateless `GlobalMoransI(data, nil, locality)` returns
exactly the same three values `(I, Var, Z)` as constructing a Moran engine
from the same inputs and calling `I()`, `Var()`, `Z()` — for every
square-root function, since both sides perform the identical sequence of
operations. -/
theorem globalMoransI_eq_moran_engine (sqrt : ℚ → ℚ) (data : List ℚ) (w : Mat)
    (hr : w.rows = data.length) (hc : w.cols = data.length) :
    GlobalMoransI sqrt data none w =
      (NewMoran data w).map (fun m => (m.I, m.Var, Moran.Z sqrt m)) := by
  have hcond : ¬(w.rows ≠ data.length ∨ w.cols ≠ data.length) := by
    simp [hr, hc]
  simp only [GlobalMoransI, NewMoran, if_neg hcond, Except.map]
  rfl

/-- Witness for C1 at a concrete 2-point input. -/
theorem globalMoransI_eq_moran_engine_witness :
    W2.rows = [(0 : ℚ), 1].length ∧ W2.cols = [(0 : ℚ), 1].length ∧
    GlobalMoransI id [(0 : ℚ), 1] none W2 =
      (NewMoran [(0 : ℚ), 1] W2).map (fun m => (m.I, m.Var, Moran.Z id m)) :=
  ⟨rfl, rfl, globalMoransI_eq_moran_engine id [(0 : ℚ), 1] W2 rfl rfl⟩

/-- C6: every construction or mutation whose supplied data length and
locality dimensions (new, or combined with the currently held counterpart)
disagree returns `DimensionMismatch`, and the engine that attempted the
mutation is left unchanged (the check precedes any state change). -/
theorem dimension_mismatch_rejects (d : List ℚ) (w : Mat) (m : Moran) (g : GetisOrd) :
    ((w.rows ≠ d.length ∨ w.cols ≠ d.length) →
      NewMoran d w = .error .dimensionMismatch ∧
      NewGetisOrd d none w = .error .dimensionMismatch ∧
      m.Reset (some d) (some w) = .error .dimensionMismatch ∧
      exGetD (m.Reset (some d) (some w)) m = m ∧
      g.Reset (some d) (some w) = .error .dimensionMismatch ∧
      exGetD (g.Reset (some d) (some w)) g = g) ∧
    ((m.locality.rows ≠ d.length ∨ m.locality.cols ≠ d.length) →
      m.SetData d = .error .dimensionMismatch ∧
      exGetD (m.SetData d) m = m ∧
      m.Reset (some d) none = .error .dimensionMismatch ∧
      exGetD (m.Reset (some d) none) m = m) ∧
    ((w.rows ≠ m.data.length ∨ w.cols ≠ m.data.length) →
      m.SetLocality w = .error .dimensionMismatch ∧
      exGetD (m.SetLocality w) m = m ∧
      m.Reset none (some w) = .error .dimensionMismatch ∧
      exGetD (m.Reset none (some w)) m = m) ∧
    ((g.locality.rows ≠ d.length ∨ g.locality.cols ≠ d.length) →
      g.SetData d = .error .dimensionMismatch ∧
      exGetD (g.SetData d) g = g ∧
      g.Reset (some d) none = .error .dimensionMismatch ∧
      exGetD (g.Reset (some d) none) g = g) ∧
    ((w.rows ≠ g.data.length ∨ w.cols ≠ g.data.length) →
      g.SetLocality w = .error .dimensionMismatch ∧
      exGetD (g.SetLocality w) g = g ∧
      g.Reset none (some w) = .error .dimensionMismatch ∧
      exGetD (g.Reset none (some w)) g = g) := by
  refine ⟨fun h => ⟨?_, ?_, ?_, ?_, ?_, ?_⟩, fun h => ⟨?_, ?_, ?_, ?_⟩,
    fun h => ⟨?_, ?_, ?_, ?_⟩, fun h => ⟨?_, ?_, ?_, ?_⟩,
    fun h => ⟨?_, ?_, ?_, ?_⟩⟩ <;>
    simp only [NewMoran, NewGetisOrd, Moran.Reset, GetisOrd.Reset, Moran.SetData,
      Moran.SetLocality, GetisOrd.SetData, GetisOrd.SetLocality, exGetD, if_pos h]

/-- Witness for C6: every mismatch branch exercised at concrete inputs. -/
theorem dimension_mismatch_rejects_witness :
    (W3.rows ≠ [(1 : ℚ), 2].length ∨ W3.cols ≠ [(1 : ℚ), 2].length) ∧
    (Mm0.locality.rows ≠ [(1 : ℚ), 2].length ∨
      Mm0.locality.cols ≠ [(1 : ℚ), 2].length) ∧
    (W3.rows ≠ Mm0.data.length ∨ W3.cols ≠ Mm0.data.length) ∧
    (Gg0.locality.rows ≠ [(1 : ℚ), 2].length ∨
      Gg0.locality.cols ≠ [(1 : ℚ), 2].length) ∧
    (W3.rows ≠ Gg0.data.length ∨ W3.cols ≠ Gg0.data.length) ∧
    NewMoran [(1 : ℚ), 2] W3 = .error .dimensionMismatch ∧
    NewGetisOrd [(1 : ℚ), 2] none W3 = .error .dimensionMismatch ∧
    exGetD (Mm0.Reset (some [(1 : ℚ), 2]) (some W3)) Mm0 = Mm0 ∧
    Mm0.SetData [(1 : ℚ), 2] = .error .dimensionMismatch ∧
    exGetD (Mm0.SetData [(1 : ℚ), 2]) Mm0 = Mm0 ∧
    Mm0.SetLocality W3 = .error .dimensionMismatch ∧
    exGetD (Mm0.Reset none (some W3)) Mm0 = Mm0 ∧
    Gg0.SetData [(1 : ℚ), 2] = .error .dimensionMismatch ∧
    exGetD (Gg0.Reset (some [(1 : ℚ), 2]) none) Gg0 = Gg0 ∧
    Gg0.SetLocality W3 = .error .dimensionMismatch ∧
    exGetD (Gg0.SetLocality W3) Gg0 = Gg0 := by
  obtain ⟨b1, b2, b3, b4, b5⟩ :=
    dimension_mismatch_rejects [(1 : ℚ), 2] W3 Mm0 Gg0
  have h1 := b1 (by decide)
  have h2 := b2 (by decide)
  have h3 := b3 (by decide)
  have h4 := b4 (by decide)
  have h5 := b5 (by decide)
  exact ⟨by decide, by decide, by decide, by decide, by decide,
    h1.1, h1.2.1, h1.2.2.2.1, h2.1, h2.2.1, h3.1, h3.2.2.2,
    h4.1, h4.2.2.2, h5.1, h5.2.1⟩

theorem moran_I_congr (m1 m2 : Moran) (hd : m1.data = m2.data)
    (hm : m1.mean = m2.mean) (hS : m1.locality.Sum = m2.locality.Sum)
    (hAt : ∀ i j, i < m2.data.length → j < m2.data.length →
      m1.locality.At i j = m2.locality.At i j) :
    m1.I = m2.I := by
  simp only [Moran.I]
  rw [hd, hm, hS]
  have hnum : ((List.range m2.data.length).map (fun i =>
      ((List.range m2.data.length).map (fun j =>
        m1.locality.At i j * (m2.data.getD i 0 - m2.mean) *
          (m2.data.getD j 0 - m2.mean))).sum)).sum
      = ((List.range m2.data.length).map (fun i =>
      ((List.range m2.data.length).map (fun j =>
        m2.locality.At i j * (m2.data.getD i 0 - m2.mean) *
          (m2.data.getD j 0 - m2.mean))).sum)).sum :=
    congrArg List.sum (map_range_congr _ (fun i hi =>
      congrArg List.sum (map_range_congr _ (fun j hj => by rw [hAt i j hi hj]))))
  rw [hnum]

theorem moran_Var_congr (m1 m2 : Moran) (hd : m1.data = m2.data)
    (hm : m1.mean = m2.mean)
    (hAt : ∀ i j, i < m2.data.length → j < m2.data.length →
      m1.locality.At i j = m2.locality.At i j) :
    m1.Var = m2.Var := by
  simp only [Moran.Var, Moran.E]
  rw [hd, hm]
  have hs0 : ((List.range m2.data.length).map (fun i =>
      ((List.range m2.data.length).map (fun j => m1.locality.At i j)).sum)).sum
      = ((List.range m2.data.length).map (fun i =>
      ((List.range m2.data.length).map (fun j => m2.locality.At i j)).sum)).sum :=
    congrArg List.sum (map_range_congr _ (fun i hi =>
      congrArg List.sum (map_range_congr _ (fun j hj => hAt i j hi hj))))
  have hs1 : ((List.range m2.data.length).map (fun i =>
      ((List.range m2.data.length).map (fun j =>
        (m1.locality.At i j + m1.locality.At j i) *
        (m1.locality.At i j + m1.locality.At j i))).sum)).sum
      = ((List.range m2.data.length).map (fun i =>
      ((List.range m2.data.length).map (fun j =>
        (m2.locality.At i j + m2.locality.At j i) *
        (m2.locality.At i j + m2.locality.At j i))).sum)).sum :=
    congrArg List.sum (map_range_congr _ (fun i hi =>
      congrArg List.sum (map_range_congr _ (fun j hj => by
        rw [hAt i j hi hj, hAt j i hj hi]))))
  have hs2 : ((List.range m2.data.length).map (fun i =>
      (((List.range m2.data.length).map (fun j =>
        m1.locality.At i j + m1.locality.At j i)).sum) *
      (((List.range m2.data.length).map (fun j =>
        m1.locality.At i j + m1.locality.At j i)).sum))).sum
      = ((List.range m2.data.length).map (fun i =>
      (((List.range m2.data.length).map (fun j =>
        m2.locality.At i j + m2.locality.At j i)).sum) *
      (((List.range m2.data.length).map (fun j =>
        m2.locality.At i j + m2.locality.At j i)).sum))).sum :=
    congrArg List.sum (map_range_congr _ (fun i hi => by
      rw [map_range_congr _ (fun j hj => by rw [hAt i j hi hj, hAt j i hj hi])]))
  rw [hs0, hs1, hs2]

theorem getisOrd_Gstar_congr (sqrt : ℚ → ℚ) (g1 g2 : GetisOrd) (i : ℕ)
    (hd : g1.data = g2.data) (hm : g1.mean = g2.mean) (hs : g1.s = g2.s)
    (hcols : g1.locality.cols = g2.locality.cols)
    (hAt : ∀ j, j < g2.locality.cols → g1.locality.At i j = g2.locality.At i j) :
    GetisOrd.Gstar sqrt g1 i = GetisOrd.Gstar sqrt g2 i := by
  simp only [GetisOrd.Gstar, Mat.RowView]
  rw [hd, hm, hs, hcols]
  have hrow : (List.range g2.locality.cols).map (g1.locality.At i)
      = (List.range g2.locality.cols).map (g2.locality.At i) :=
    map_range_congr _ hAt
  rw [hrow]

/-- C8: calling `Reset` with the currently held data and locality values
(or with both arguments nil) leaves the results of all subsequent queries
(`I`, `E`, `Var`, `Z`, `Gstar`, `Len`) unchanged, for every well-formed
engine (cached moments as the API computes them, dimensions matching). -/
theorem reset_with_current_values_is_noop (m : Moran) (g : GetisOrd)
    (sqrt : ℚ → ℚ) (i : ℕ)
    (hmm : m.mean = Mean m.data)
    (hmr : m.locality.rows = m.data.length) (hmc : m.locality.cols = m.data.length)
    (hgm : g.mean = Mean g.data) (hgs : g.s = SMoment g.data)
    (hgr : g.locality.rows = g.data.length) (hgc : g.locality.cols = g.data.length)
    (hi : i < g.data.length) :
    m.Reset none none = .ok m ∧
    g.Reset none none = .ok g ∧
    (exGetD (m.Reset (some m.data) (some m.locality)) m).I = m.I ∧
    (exGetD (m.Reset (some m.data) (some m.locality)) m).E = m.E ∧
    (exGetD (m.Reset (some m.data) (some m.locality)) m).Var = m.Var ∧
    Moran.Z sqrt (exGetD (m.Reset (some m.data) (some m.locality)) m)
      = Moran.Z sqrt m ∧
    GetisOrd.Gstar sqrt (exGetD (g.Reset (some g.data) (some g.locality)) g) i
      = GetisOrd.Gstar sqrt g i ∧
    (exGetD (g.Reset (some g.data) (some g.locality)) g).Len = g.Len := by
  have hmcond : ¬(m.locality.rows ≠ m.data.length ∨ m.locality.cols ≠ m.data.length) := by
    simp [hmr, hmc]
  have hgcond : ¬(g.locality.rows ≠ g.data.length ∨ g.locality.cols ≠ g.data.length) := by
    simp [hgr, hgc]
  have hmres : exGetD (m.Reset (some m.data) (some m.locality)) m
      = ⟨m.data, Mean m.data,
          Mat.growCopy m.locality.rows m.locality.cols m.locality⟩ := by
    simp only [Moran.Reset, if_neg hmcond, exGetD]
  have hgres : exGetD (g.Reset (some g.data) (some g.locality)) g
      = ⟨g.data, Mat.growCopy g.locality.rows g.locality.cols g.locality,
          Mean g.data, SMoment g.data⟩ := by
    simp only [GetisOrd.Reset, if_neg hgcond, exGetD]
  have hAtm : ∀ a b, a < m.data.length → b < m.data.length →
      (Mat.growCopy m.locality.rows m.locality.cols m.locality).At a b
        = m.locality.At a b := fun a b ha hb =>
    growCopy_at m.locality (lt_of_lt_of_eq ha hmr.symm) (lt_of_lt_of_eq hb hmc.symm)
  have hI : (⟨m.data, Mean m.data,
      Mat.growCopy m.locality.rows m.locality.cols m.locality⟩ : Moran).I = m.I :=
    moran_I_congr _ m rfl hmm.symm (growCopy_sum m.locality) hAtm
  have hV : (⟨m.data, Mean m.data,
      Mat.growCopy m.locality.rows m.locality.cols m.locality⟩ : Moran).Var = m.Var :=
    moran_Var_congr _ m rfl hmm.symm hAtm
  refine ⟨rfl, rfl, ?_, ?_, ?_, ?_, ?_, ?_⟩
  · rw [hmres]; exact hI
  · rw [hmres]; rfl
  · rw [hmres]; exact hV
  · rw [hmres]
    simp only [Moran.Z]
    rw [hI, hV]
    rfl
  · rw [hgres]
    exact getisOrd_Gstar_congr sqrt _ g i rfl hgm.symm hgs.symm rfl
      (fun j hj => growCopy_at g.locality (lt_of_lt_of_eq hi hgr.symm) hj)
  · rw [hgres]; rfl

/-- Witness for C8 at concrete well-formed engines. -/
theorem reset_with_current_values_is_noop_witness :
    M4.mean = Mean M4.data ∧
    M4.locality.rows = M4.data.length ∧ M4.locality.cols = M4.data.length ∧
    G2.mean = Mean G2.data ∧ G2.s = SMoment G2.data ∧
    G2.locality.rows = G2.data.length ∧ G2.locality.cols = G2.data.length ∧
    0 < G2.data.length ∧
    (M4.Reset none none = .ok M4 ∧
      G2.Reset none none = .ok G2 ∧
      (exGetD (M4.Reset (some M4.data) (some M4.locality)) M4).I = M4.I ∧
      (exGetD (M4.Reset (some M4.data) (some M4.locality)) M4).E = M4.E ∧
      (exGetD (M4.Reset (some M4.data) (some M4.locality)) M4).Var = M4.Var ∧
      Moran.Z id (exGetD (M4.Reset (some M4.data) (some M4.locality)) M4)
        = Moran.Z id M4 ∧
      GetisOrd.Gstar id (exGetD (G2.Reset (some G2.data) (some G2.locality)) G2) 0
        = GetisOrd.Gstar id G2 0 ∧
      (exGetD (G2.Reset (some G2.data) (some G2.locality)) G2).Len = G2.Len) :=
  ⟨rfl, rfl, rfl, rfl, rfl, rfl, rfl, by decide,
    reset_with_current_values_is_noop M4 G2 id 0 rfl rfl rfl rfl rfl rfl rfl
      (by decide)⟩

theorem fpdiv_fin_zero_nonfinite (a : ℚ) :
    FP.finite (FPdiv (FP.fin a) (FP.fin 0)) = false := by
  simp only [FPdiv]
  split_ifs <;> simp_all [FP.finite]

theorem fpmul_zero_sqrt_nonfinite (rsqrt : ℚ → ℚ) (v : FP)
    (hv : FP.finite v = false) :
    FPmul (FP.fin 0) (FPsqrt rsqrt v) = FP.nan := by
  cases v with
  | fin q => simp [FP.finite] at hv
  | inf => simp [FPsqrt, FPmul]
  | ninf => simp [FPsqrt, FPmul]
  | nan => simp [FPsqrt, FPmul]

theorem fpdiv_nan_right (u : FP) : FPdiv u FP.nan = FP.nan := by
  cases u <;> rfl

theorem fpden_nan (rsqrt : ℚ → ℚ) (u v : FP) (hv : FP.finite v = false) :
    FPdiv u (FPmul (FP.fin 0) (FPsqrt rsqrt v)) = FP.nan := by
  rw [fpmul_zero_sqrt_nonfinite rsqrt v hv, fpdiv_nan_right]

/-- C9: with one observation and a 1×1 locality matrix, construction
succeeds for both engines, and in the IEEE special-value model `E()`
returns `-Inf` (division by `n−1 = 0`) and `Gstar(0)` returns `NaN` — both
non-finite — rather than raising any error; this holds for every data
value, every weight value and every square-root function. -/
theorem n_eq_one_nonfinite (x wv : ℚ) (rsqrt : ℚ → ℚ) :
    exOk (NewMoran [x] ⟨1, 1, fun _ _ => wv⟩) = true ∧
    exOk (NewGetisOrd [x] none ⟨1, 1, fun _ _ => wv⟩) = true ∧
    FPMoranE [FP.fin x] = FP.ninf ∧
    FP.finite (FPMoranE [FP.fin x]) = false ∧
    FPGstar rsqrt [FP.fin x] (FPMean [FP.fin x]) (FPsmoment [FP.fin x])
      ⟨1, 1, fun _ _ => FP.fin wv⟩ 0 = FP.nan ∧
    FP.finite (FPGstar rsqrt [FP.fin x] (FPMean [FP.fin x]) (FPsmoment [FP.fin x])
      ⟨1, 1, fun _ _ => FP.fin wv⟩ 0) = false := by
  have hE : FPMoranE [FP.fin x] = FP.ninf := by
    simp only [FPMoranE, List.length_cons, List.length_nil, Nat.cast_one]
    norm_num [FPdiv]
  have hmean : FPMean [FP.fin x] = FP.fin x := by
    simp only [FPMean, FPsum, List.foldl, FPadd, List.length_cons, List.length_nil,
      Nat.cast_one]
    norm_num [FPdiv]
  have hs : FPsmoment [FP.fin x] = FP.fin 0 := by
    simp only [FPsmoment, List.map, FPmul, FPsum, List.foldl, FPadd,
      List.length_cons, List.length_nil, Nat.cast_one, hmean]
    norm_num [FPdiv, FPsub, FPneg, FPadd, FPmul]
  have hwi : MatF.RowView ⟨1, 1, fun _ _ => FP.fin wv⟩ 0 = [FP.fin wv] := rfl
  have hg : FPGstar rsqrt [FP.fin x] (FPMean [FP.fin x]) (FPsmoment [FP.fin x])
      ⟨1, 1, fun _ _ => FP.fin wv⟩ 0 = FP.nan := by
    rw [hmean, hs]
    simp only [FPGstar, hwi]
    have hlen : (([FP.fin x].length : ℕ) : ℚ) = 1 := by simp
    rw [hlen]
    have hDval : FPsub (FP.fin 1) (FP.fin 1) = FP.fin 0 := by
      norm_num [FPsub, FPneg, FPadd]
    rw [hDval]
    have hXval : FPsub (FPmul (FP.fin 1) (FPdot [FP.fin wv] [FP.fin wv]))
        (FPmul (FPmul (FP.fin x) (FPsum [FP.fin wv]))
          (FPmul (FP.fin x) (FPsum [FP.fin wv])))
        = FP.fin (1 * (0 + wv * wv) + -(x * (0 + wv) * (x * (0 + wv)))) := rfl
    rw [hXval]
    exact fpden_nan rsqrt _ _ (fpdiv_fin_zero_nonfinite _)
  refine ⟨by simp [NewMoran, exOk], by simp [NewGetisOrd, exOk], hE, ?_, hg, ?_⟩
  · rw [hE]; rfl
  · rw [hg]; rfl
